import Mathlib

set_option maxHeartbeats 1000000

namespace SatSched

/- Calendar utilities, embedded from src/app.py lines 32-57.  Dates are
   proleptic-Gregorian ordinal day numbers as in Python `date.toordinal`:
   day 1 is Jan 1 of year 1, which is a Monday. -/

/-- Weekday of an ordinal day, Monday = 0 .. Sunday = 6, as in Python `date.weekday()`. -/
def weekday (o : Nat) : Nat := (o + 6) % 7

/-- Embeds `coming_saturday` (app.py line 32): `from_day + timedelta(days=(5 - from_day.weekday()) % 7)`.
Python's `(5 - w) % 7` over the integers equals `(12 - w) % 7` for `w < 7`. -/
def comingSaturday (d : Nat) : Nat := d + (12 - weekday d) % 7

/-- Days strictly before Jan 1 of year `y` (standard Gregorian count, as under Python's `date.toordinal`). -/
def daysBeforeYear (y : Nat) : Nat :=
  365 * (y - 1) + (y - 1) / 4 - (y - 1) / 100 + (y - 1) / 400

/-- Ordinal of Jan 1 of year `y`. -/
def jan1 (y : Nat) : Nat := daysBeforeYear y + 1

/-- Ordinal of Dec 31 of year `y`. -/
def dec31 (y : Nat) : Nat := jan1 (y + 1) - 1

/-- Embeds `last_saturday_of_year` (app.py line 36): `last_day - (last_day.weekday() - 5) % 7`.
Python's `(w - 5) % 7` over the integers equals `(w + 2) % 7` for `w < 7`. -/
def lastSaturdayOfYear (y : Nat) : Nat := dec31 y - (weekday (dec31 y) + 2) % 7

/-- Embeds `saturdays_between` (app.py line 40): yields `start, start+7, ...` while `≤ end`. -/
def saturdaysBetween (start endd : Nat) : List Nat :=
  if endd < start then []
  else (List.range ((endd - start) / 7 + 1)).map (fun i => start + 7 * i)

/- Data model, embedded from src/models.py. -/

structure Department where
  id : Nat
  name : String
deriving DecidableEq

structure Employee where
  id : Nat
  name : String
  department_id : Nat
  group_num : Option Nat
deriving DecidableEq

structure Schedule where
  id : Nat
  date : Nat
  department_id : Nat
  employee_id : Nat
  override : Bool
deriving DecidableEq

structure Holiday where
  date : Nat
  note : Option String
deriving DecidableEq

/-- The relational store: the four tables of models.py.  Lists play the role of
tables; `Department.employees` is recovered by filtering on the foreign key. -/
structure Store where
  departments : List Department
  employees : List Employee
  schedules : List Schedule
  holidays : List Holiday
deriving DecidableEq

/- Department-name constants, app.py lines 18-27. -/

def DEPT_DISPATCH : String := "Dispatch (MOD)"
def DEPT_CSR : String := "CSR"
def DEPT_SPEC_OPS_OFFICE : String := "Spec Ops office"
def DEPT_AUTO : String := "Auto"
def DEPT_SHOP : String := "Shop"
def DEPT_DAL : String := "DAL"
def DEPT_CAR : String := "CAR"
def DEPT_ARL : String := "ARL"
def DEPT_COLDEN : String := "COL/DEN"
def DEPT_SPEC_OPS : String := "Spec Ops"

/- String helpers: explicit models of the Python string methods the scheduler
   uses on (ASCII) employee and department names. -/

/-- Whitespace as stripped by Python `str.strip()`. -/
def pySpace (c : Char) : Bool := c == ' ' || c == '\t' || c == '\n' || c == '\r'

/-- Python `s.strip()`: drop leading and trailing whitespace. -/
def pyStrip (s : String) : String :=
  String.mk (((s.data.dropWhile pySpace).reverse.dropWhile pySpace).reverse)

/-- Lowercasing of one ASCII character, as Python `str.lower()` acts on the
ASCII names in this system. -/
def pyLowerChar (c : Char) : Char :=
  if 'A' ≤ c && c ≤ 'Z' then Char.ofNat (c.toNat + 32) else c

/-- Python `s.lower()` on ASCII strings. -/
def pyLower (s : String) : String := String.mk (s.data.map pyLowerChar)

/-- Python `s.startswith(pre)`. -/
def pyStartsWith (s pre : String) : Bool := pre.data.isPrefixOf s.data

/- Rotation helpers. -/

/-- Insertion of an employee into a list sorted by ascending id. -/
def insertById (e : Employee) : List Employee → List Employee
  | [] => [e]
  | x :: xs => if e.id ≤ x.id then e :: x :: xs else x :: insertById e xs

/-- Embeds Python's `sorted(..., key=lambda e: e.id)`. -/
def sortById (l : List Employee) : List Employee := l.foldr insertById []

/-- Employees of a department, in table order (the ORM relationship). -/
def deptEmployeesRaw (s : Store) (d : Department) : List Employee :=
  s.employees.filter (fun e => e.department_id == d.id)

/-- Embeds `dept_employees` (app.py line 240): the department's employees sorted by id. -/
def deptEmployees (s : Store) (d : Department) : List Employee :=
  sortById (deptEmployeesRaw s d)

/-- Embeds `next_from_deque` (app.py line 52): returns the head and rotates it to the tail. -/
def nextFromDeque (q : List Employee) : Option Employee × List Employee :=
  match q with
  | [] => (none, [])
  | x :: xs => (some x, xs ++ [x])

/-- One left rotation of a deque, Python `q.rotate(-1)`. -/
def rotL (q : List Employee) : List Employee :=
  match q with
  | [] => []
  | x :: xs => xs ++ [x]

/-- Rotate left until the head has the given employee id, with fuel (the source's
`while q and q[0].id != last_emp_id: q.rotate(-1)` loop, which is only entered when
the id is known to occur in the deque). -/
def rotateToHead : Nat → Nat → List Employee → List Employee
  | 0, _, q => q
  | n + 1, eid, q =>
    if q.head?.map (fun e => e.id) == some eid then q else rotateToHead n eid (rotL q)

/-- Embeds the fairness realignment body (app.py lines 315-317): rotate the deque so
that the given employee moves to the tail, i.e. the next draw is their successor. -/
def realignAfter (q : List Employee) (eid : Nat) : List Employee :=
  rotL (rotateToHead q.length eid q)

/-- Maximum of a list of dates, `None` for the empty list (the `order_by(date.desc()).first()` query). -/
def maxDate? (l : List Nat) : Option Nat :=
  l.foldl (fun acc d => match acc with | none => some d | some m => some (max m d)) none

/-- Embeds the fairness alignment step of `generate_schedule` (app.py lines 302-317):
find the most recent row strictly before the coming Saturday; if exactly one employee
was assigned on that date and that employee is in the rotation, realign after them. -/
def fairnessAlign (s : Store) (comingSat : Nat) (d : Department) (q : List Employee) :
    List Employee :=
  let past := s.schedules.filter (fun r => r.department_id == d.id && r.date < comingSat)
  match maxDate? (past.map (fun r => r.date)) with
  | none => q
  | some lastDate =>
    match past.filter (fun r => r.date == lastDate) with
    | [r] =>
      if !q.isEmpty && q.any (fun e => e.id == r.employee_id) then
        realignAfter q r.employee_id
      else q
    | _ => q

/-- Embeds the Corey lookup (app.py lines 256-261): first CAR employee, in table
order, whose stripped lowercase name starts with "corey". -/
def coreyOf (s : Store) (d : Department) : Option Employee :=
  (deptEmployeesRaw s d).find? (fun e => pyStartsWith (pyLower (pyStrip e.name)) ("corey"))

/-- Embeds the CAR rotation rebuild (app.py lines 263-266):
`[e for e in car_emps if corey_emp and e.id != corey_emp.id]`, sorted by id.
Note the guard: when no Corey exists the comprehension keeps nobody. -/
def carRotation (s : Store) (d : Department) : List Employee :=
  sortById ((deptEmployeesRaw s d).filter (fun e =>
    match coreyOf s d with
    | some c => e.id != c.id
    | none => false))

/-- Embeds the `spec_ops_groups` mapping (app.py lines 247-253): members of the
department with the given group number, sorted by id. -/
def specOpsGroup (s : Store) (d : Department) (g : Nat) : List Employee :=
  sortById ((deptEmployeesRaw s d).filter (fun e => e.group_num == some g))

/-- A schedule row as inserted by `generate_schedule` (id assigned later by the
database sequence; every insert in the source is `Schedule(date=sat,
department_id=dept.id, employee_id=..., override=False)`). -/
def mkRow (sat deptId empId : Nat) : Schedule :=
  { id := 0, date := sat, department_id := deptId, employee_id := empId, override := false }

/-- The fixed slot of the CAR branch (app.py lines 342-344): Corey is assigned first
when present; his id is the `used` set guarding the rotation draw. -/
def carBase : Option Employee → List Employee
  | some c => [c]
  | none => []

/-- The Tommy pairing of the Shop branch (app.py lines 404-414): when both Edwin and
a Tommy exist among the department's sorted employees and the drawn employee's
stripped name is Edwin, Tommy is assigned alongside. -/
def shopPair (emps : List Employee) (e : Employee) : List Employee :=
  match emps.find? (fun x => pyStrip x.name == "Edwin"),
        emps.find? (fun x => pyStartsWith (pyLower x.name) ("tommy")) with
  | some _, some t => if pyStrip e.name == "Edwin" then [t] else []
  | _, _ => []

/-- Embeds one iteration of the per-date department rules of `generate_schedule`
(app.py lines 334-423), returning the employees assigned on this date together with
the updated rotation deque.  `idx` is the zero-based position of `sat` in the
department's target-date list (`for idx, sat in enumerate(target_dates)`), `emps`
the department's employees sorted by id. -/
def deptAssign (s : Store) (endd year : Nat) (d : Department) (emps : List Employee)
    (idx sat : Nat) (q : List Employee) :
    Except String (List Employee × List Employee) :=
  if d.name == DEPT_SPEC_OPS then
    -- week_num = idx + 1; group_for_week = ((week_num - 1) % 4) + 1
    .ok (specOpsGroup s d ((idx + 1 - 1) % 4 + 1), q)
  else if d.name == DEPT_CAR then
    match nextFromDeque q with
    | (none, q2) => .ok (carBase (coreyOf s d), q2)
    | (some cand, q2) =>
      if (match coreyOf s d with | some c => cand.id != c.id | none => true) then
        .ok (carBase (coreyOf s d) ++ [cand], q2)
      else .ok (carBase (coreyOf s d), q2)
  else if d.name == DEPT_AUTO then
    if emps.isEmpty then .ok ([], q)
    else
      match (saturdaysBetween (jan1 year) endd).findIdx? (fun dd => dd == sat) with
      | none => .error ("ValueError: date not in list")
      | some weekIndex =>
        if weekIndex % 2 == 0 then
          match emps[(weekIndex / 2) % emps.length]? with
          | some e => .ok ([e], q)
          | none => .ok ([], q)
        else .ok ([], q)
  else if d.name == DEPT_DAL then
    if emps.isEmpty then .ok ([], q)
    else
      match (saturdaysBetween (jan1 year) endd).findIdx? (fun dd => dd == sat) with
      | none => .error ("ValueError: date not in list")
      | some weekIndex =>
        -- cycle_pos = week_index % 4; ON weeks are cycle positions 0 and 1
        if weekIndex % 4 == 0 || weekIndex % 4 == 1 then
          match emps[(weekIndex % 4) % emps.length]? with
          | some e => .ok ([e], q)
          | none => .ok ([], q)
        else .ok ([], q)
  else if d.name == DEPT_COLDEN then
    if emps.isEmpty then .ok ([], q)
    else
      match (saturdaysBetween (jan1 year) endd).findIdx? (fun dd => dd == sat) with
      | none => .error ("ValueError: date not in list")
      | some weekIndex =>
        -- cycle_pos = week_index % 4; ON weeks are cycle positions 0, 1 and 2
        if weekIndex % 4 == 0 || weekIndex % 4 == 1 || weekIndex % 4 == 2 then
          match emps[(weekIndex % 4) % emps.length]? with
          | some e => .ok ([e], q)
          | none => .ok ([], q)
        else .ok ([], q)
  else if d.name == DEPT_SHOP then
    match nextFromDeque q with
    | (none, _) =>
      -- rotation empty: q is rebuilt from the sorted employee list and redrawn
      match nextFromDeque emps with
      | (none, q3) => .ok ([], q3)
      | (some e, q3) => .ok (e :: shopPair emps e, q3)
    | (some e, q2) => .ok (e :: shopPair emps e, q2)
  else
    match nextFromDeque q with
    | (none, _) =>
      match nextFromDeque emps with
      | (none, q3) => .ok ([], q3)
      | (some e, q3) => .ok ([e], q3)
    | (some e, q2) => .ok ([e], q2)

/-- Embeds the `for idx, sat in enumerate(target_dates)` loop of `generate_schedule`
for one department, threading the rotation deque and emitting the inserted rows. -/
def deptLoop (s : Store) (endd year : Nat) (d : Department) (emps : List Employee) :
    Nat → List Nat → List Employee → Except String (List Schedule)
  | _, [], _ => .ok []
  | idx, sat :: rest, q =>
    match deptAssign s endd year d emps idx sat q with
    | .error e => .error e
    | .ok (chosen, q1) =>
      match deptLoop s endd year d emps (idx + 1) rest q1 with
      | .error e => .error e
      | .ok tail => .ok (chosen.map (fun e => mkRow sat d.id e.id) ++ tail)

/-- Rows generated for one department of the main loop (app.py lines 297-423):
build the rotation (with the CAR carve-out), apply the fairness alignment, then run
the per-date rules over the department's target dates. -/
def deptGenerate (s : Store) (comingSat endd year : Nat) (d : Department)
    (targets : List Nat) : Except String (List Schedule) :=
  let emps := deptEmployees s d
  let q0 := if d.name == DEPT_CAR then carRotation s d else emps
  deptLoop s endd year d emps 0 targets (fairnessAlign s comingSat d q0)

/-- Rows generated across all departments that need repair, in department order. -/
def genAll (s : Store) (comingSat endd year : Nat) :
    List (Department × List Nat) → Except String (List Schedule)
  | [] => .ok []
  | (d, ts) :: rest =>
    match deptGenerate s comingSat endd year d ts with
    | .error e => .error e
    | .ok rows =>
      match genAll s comingSat endd year rest with
      | .error e => .error e
      | .ok tail => .ok (rows ++ tail)

/-- Embeds the detection phase for one department (app.py lines 271-291):
target dates with no row, and employees with no future row; returns the
department's target-date list when repair is needed. -/
def missingFor (s : Store) (comingSat : Nat) (allSats : List Nat) (d : Department) :
    Option (List Nat) :=
  let covered := fun (sat : Nat) =>
    s.schedules.any (fun r =>
      comingSat ≤ r.date && r.department_id == d.id && r.date == sat)
  let missingDates := allSats.filter (fun sat => !covered sat)
  let empIds := (deptEmployeesRaw s d).map (fun e => e.id)
  let futureEmpIds :=
    (s.schedules.filter (fun r => r.department_id == d.id && comingSat ≤ r.date)).map
      (fun r => r.employee_id)
  let unscheduled := empIds.filter (fun i => !futureEmpIds.contains i)
  if !missingDates.isEmpty then some missingDates
  else if !unscheduled.isEmpty then some allSats
  else none

/-- The holiday-excluded Saturday window of a repair run (app.py lines 233-234). -/
def targetSats (s : Store) (today year : Nat) : List Nat :=
  let holidayDates := s.holidays.map (fun h => h.date)
  (saturdaysBetween (comingSaturday today) (lastSaturdayOfYear year)).filter
    (fun dd => !holidayDates.contains dd)

/-- Embeds `missing_by_dept` (app.py lines 268-291), in department-table order. -/
def missingByDept (s : Store) (today year : Nat) : List (Department × List Nat) :=
  s.departments.filterMap (fun d =>
    (missingFor s (comingSaturday today) (targetSats s today year) d).map
      (fun ts => (d, ts)))

/-- The per-department cleanup predicate (app.py lines 320-324): delete rows of a
repaired department on its target dates unless flagged override. -/
def shouldDelete (missing : List (Department × List Nat)) (r : Schedule) : Bool :=
  r.override == false &&
    missing.any (fun p => r.department_id == p.1.id && p.2.contains r.date)

/-- Largest schedule id in the store (the database id sequence's high-water mark). -/
def maxSchedId (s : Store) : Nat := s.schedules.foldl (fun m r => max m r.id) 0

/-- Assign consecutive database ids to freshly inserted rows, in insertion order. -/
def assignIds (c : Nat) : List Schedule → List Schedule
  | [] => []
  | r :: rs => { r with id := c } :: assignIds (c + 1) rs

/-- Embeds `generate_schedule` (app.py lines 209-430).  `today` is the request
date (`date.today()`), `year` the target year.  Returns the committed store, the
inserted rows and the deleted rows; `.error` models the uncaught Python exception
(the transaction rolls back, nothing is committed). -/
def generate (s : Store) (today year : Nat) :
    Except String (Store × List Schedule × List Schedule) :=
  if lastSaturdayOfYear year < comingSaturday today then .ok (s, [], [])
  else if (missingByDept s today year).isEmpty then .ok (s, [], [])
  else
    match genAll s (comingSaturday today) (lastSaturdayOfYear year) year
        (missingByDept s today year) with
    | .error e => .error e
    | .ok protos =>
      .ok ({ s with schedules :=
               s.schedules.filter (fun r => !shouldDelete (missingByDept s today year) r)
                 ++ assignIds (maxSchedId s + 1) protos },
           assignIds (maxSchedId s + 1) protos,
           s.schedules.filter (fun r => shouldDelete (missingByDept s today year) r))

/-- Committed store of a repair run: on an exception the transaction rolls back and
the store is unchanged. -/
def runGenerate (s : Store) (today year : Nat) : Store :=
  match generate s today year with
  | .ok p => p.1
  | .error _ => s

/-- Rows inserted by a repair run (empty when the run fails). -/
def generateInserts (s : Store) (today year : Nat) : List Schedule :=
  match generate s today year with
  | .ok p => p.2.1
  | .error _ => []

/-- Rows deleted by a repair run (empty when the run fails). -/
def generateDeletes (s : Store) (today year : Nat) : List Schedule :=
  match generate s today year with
  | .ok p => p.2.2
  | .error _ => []

/-- Whether a repair run raises an uncaught exception. -/
def generateFails (s : Store) (today year : Nat) : Bool :=
  match generate s today year with
  | .ok _ => false
  | .error _ => true

/-- Modelled from the spec (section 4.1): `weekIndexWithinYear(date, year)` is the
zero-based position of `date` among the full Saturday sequence starting from the
first Saturday on or after Jan 1 of `year` through the last Saturday of `year`.
Used only to compare the code's cadence index against the spec's. -/
def weekIndexWithinYear (d year : Nat) : Option Nat :=
  (saturdaysBetween (comingSaturday (jan1 year)) (lastSaturdayOfYear year)).findIdx?
    (fun x => x == d)

/-- Embeds `add_holiday` (app.py lines 187-202): upsert the Holiday record for the
date and delete every Schedule row on that date. -/
def addHoliday (s : Store) (d : Nat) (note : Option String) : Store :=
  let holidays :=
    if s.holidays.any (fun h => h.date == d) then
      s.holidays.map (fun h => if h.date == d then { h with note := note } else h)
    else s.holidays ++ [{ date := d, note := note }]
  { s with holidays := holidays,
           schedules := s.schedules.filter (fun r => !(r.date == d)) }

/-- Result of `swap_shift` (app.py lines 583-644): success, or the 404 when a date
has no schedule rows, or the 404 when fuzzy resolution finds no row. -/
inductive SwapResult where
  | success
  | noScheduleForDates
  | employeesNotFound
deriving DecidableEq

/-- Embeds `swap_shift` (app.py lines 583-644).  The difflib fuzzy matcher is an
external collaborator; it is passed in as `resolve : rows → candidate name → row`.
On success the two resolved rows exchange employee references (a simultaneous
Python tuple assignment) and both are marked override. -/
def swapShift (resolve : List Schedule → String → Option Schedule) (s : Store)
    (emp1 emp2 : String) (origDate newDate : Nat) : SwapResult × Store :=
  let origSchedules := s.schedules.filter (fun r => r.date == origDate)
  let newSchedules := s.schedules.filter (fun r => r.date == newDate)
  if origSchedules.isEmpty || newSchedules.isEmpty then (.noScheduleForDates, s)
  else
    match resolve origSchedules emp1, resolve newSchedules emp2 with
    | some r1, some r2 =>
      (.success,
       { s with schedules := s.schedules.map (fun r =>
           if r.id == r1.id then { r with employee_id := r2.employee_id, override := true }
           else if r.id == r2.id then { r with employee_id := r1.employee_id, override := true }
           else r) })
    | _, _ => (.employeesNotFound, s)

/-- The departments that may hold several rows per date under CSV import
(app.py line 504). -/
def multiAllowed : List String := [DEPT_SPEC_OPS, DEPT_CAR, DEPT_COLDEN]

/-- Embeds one row of `import_schedule` (app.py lines 506-548): resolve department
(case-insensitive) and employee within it; single-slot departments first drop their
non-override rows on that date; multi-slot departments skip exact duplicates; the
new row is inserted with override false.  `c` is the id sequence counter. -/
def importRow (s : Store) (c : Nat) (row : Nat × String × String) : Store × Nat :=
  match s.departments.find? (fun d => pyLower d.name == pyLower row.2.1) with
  | none => (s, c)
  | some dept =>
    match (s.employees.filter (fun e => e.department_id == dept.id)).find?
        (fun e => pyLower e.name == pyLower row.2.2) with
    | none => (s, c)
    | some emp =>
      if multiAllowed.contains dept.name then
        if s.schedules.any (fun r =>
            r.date == row.1 && r.department_id == dept.id && r.employee_id == emp.id) then
          (s, c)
        else
          ({ s with schedules := s.schedules ++
              [{ id := c, date := row.1, department_id := dept.id,
                 employee_id := emp.id, override := false }] }, c + 1)
      else
        let pruned := s.schedules.filter (fun r =>
          !(r.date == row.1 && r.department_id == dept.id && r.override == false))
        ({ s with schedules := pruned ++
            [{ id := c, date := row.1, department_id := dept.id,
               employee_id := emp.id, override := false }] }, c + 1)

/-- Embeds `import_schedule` (app.py lines 477-557) on already-parsed CSV rows
`(date, department name, employee name)`; parsing and file handling are external. -/
def importSchedule (s : Store) (rows : List (Nat × String × String)) : Store :=
  (rows.foldl (fun p row => importRow p.1 p.2 row) (s, maxSchedId s + 1)).1

/- Concrete dates (ordinals) used in counterexamples and witnesses. -/

/-- Saturday 2025-12-20 (Jan 1, 2025 is a Wednesday; day-of-year 354). -/
def dec20y25 : Nat := jan1 2025 + 353

/-- Saturday 2025-12-27, the last Saturday of 2025. -/
def dec27y25 : Nat := jan1 2025 + 360

/-- Saturday 2022-12-10 (Jan 1, 2022 is a Saturday; week index 49). -/
def dec10y22 : Nat := jan1 2022 + 343

/-- Saturday 2022-12-17, week index 50 of 2022. -/
def dec17y22 : Nat := jan1 2022 + 350

/-- Saturday 2022-12-31, the last Saturday of 2022, week index 52. -/
def dec31y22 : Nat := jan1 2022 + 364

/- Concrete stores used in counterexamples and witnesses. -/

/-- Store for the C1 counterexample: the group-rostered department with a single
group-1 employee and an empty schedule. -/
def storeC1 : Store :=
  { departments := [{ id := 1, name := DEPT_SPEC_OPS }],
    employees := [{ id := 1, name := "Avery", department_id := 1, group_num := some 1 }],
    schedules := [], holidays := [] }

/-- Department of the C1 witness store. -/
def deptC1w : Department := { id := 1, name := DEPT_CSR }

/-- Store for the C1 witness: a weekly one-slot department whose single employee
covers every remaining Saturday after one repair run. -/
def storeC1w : Store :=
  { departments := [deptC1w],
    employees := [{ id := 1, name := "Ana", department_id := 1, group_num := none }],
    schedules := [], holidays := [] }

/-- Store for the C2 witness: one weekly department, one employee, one override row. -/
def storeC2w : Store :=
  { departments := [{ id := 1, name := DEPT_CSR }],
    employees := [{ id := 1, name := "Ana", department_id := 1, group_num := none }],
    schedules := [{ id := 1, date := jan1 2025 + 353, department_id := 1,
                    employee_id := 1, override := true }],
    holidays := [] }

/-- Store for the C3 counterexample: the Shop department with Edwin and Tommy. -/
def storeC3 : Store :=
  { departments := [{ id := 1, name := DEPT_SHOP }],
    employees := [{ id := 1, name := "Edwin", department_id := 1, group_num := none },
                  { id := 2, name := "Tommy", department_id := 1, group_num := none }],
    schedules := [], holidays := [] }

/-- Department of the C3 witness store. -/
def deptC3w : Department := { id := 1, name := DEPT_DISPATCH }

/-- Store for the C3 witness: a plain single-slot department. -/
def storeC3w : Store :=
  { departments := [deptC3w],
    employees := [{ id := 1, name := "Noor", department_id := 1, group_num := none }],
    schedules := [], holidays := [] }

/-- Department of the C4 stores. -/
def deptC4 : Department := { id := 1, name := DEPT_SPEC_OPS }

/-- Store for the C4 counterexample: the group-rostered department with one
group-1 employee, repaired late in a year whose first target Saturday has
year-wide week index 50. -/
def storeC4 : Store :=
  { departments := [deptC4],
    employees := [{ id := 1, name := "Kim", department_id := 1, group_num := some 1 }],
    schedules := [], holidays := [] }

/-- Store for the C4 witness: the group-rostered department with members in
groups 1 and 2. -/
def storeC4w : Store :=
  { departments := [deptC4],
    employees := [{ id := 1, name := "Gia", department_id := 1, group_num := some 1 },
                  { id := 2, name := "Hal", department_id := 1, group_num := some 2 }],
    schedules := [], holidays := [] }

/-- Store for the C5 evaluation: the alternating department with one employee. -/
def storeC5 : Store :=
  { departments := [{ id := 1, name := DEPT_AUTO }],
    employees := [{ id := 1, name := "Al", department_id := 1, group_num := none }],
    schedules := [], holidays := [] }

/-- Store for the C6 evaluation: the fixed-member department with one employee
whose name does not match the designated fixed member. -/
def storeC6 : Store :=
  { departments := [{ id := 1, name := DEPT_CAR }],
    employees := [{ id := 1, name := "Bob", department_id := 1, group_num := none }],
    schedules := [], holidays := [] }

/-- Store for the C7 witness: a weekly department with an assignment already on
the date that becomes a holiday. -/
def storeC7w : Store :=
  { departments := [{ id := 1, name := DEPT_CSR }],
    employees := [{ id := 1, name := "Ana", department_id := 1, group_num := none }],
    schedules := [{ id := 1, date := jan1 2025 + 353, department_id := 1,
                    employee_id := 1, override := false }],
    holidays := [] }

/-- First row of the C8 witness store. -/
def rowC8a : Schedule :=
  { id := 1, date := 100, department_id := 1, employee_id := 1, override := false }

/-- Second row of the C8 witness store. -/
def rowC8b : Schedule :=
  { id := 2, date := 200, department_id := 1, employee_id := 2, override := false }

/-- Store for the C8 witness: two schedule rows on two dates. -/
def storeC8 : Store :=
  { departments := [{ id := 1, name := DEPT_CSR }],
    employees := [{ id := 1, name := "Xan", department_id := 1, group_num := none },
                  { id := 2, name := "Yas", department_id := 1, group_num := none }],
    schedules := [rowC8a, rowC8b],
    holidays := [] }

/-- Empty store for the notFound half of the C8 witness. -/
def storeC8e : Store :=
  { departments := [], employees := [], schedules := [], holidays := [] }

/-- A trivial resolver standing in for the external difflib matcher in the C8
witness: it returns the first row of the candidate list. -/
def headResolve : List Schedule → String → Option Schedule := fun l _ => l.head?

/-- Store for the CSV-import half of the C10 witness: one override row that
the CSV import must keep. -/
def storeC10 : Store :=
  { departments := [{ id := 1, name := DEPT_CSR }],
    employees := [{ id := 1, name := "Ana", department_id := 1, group_num := none }],
    schedules := [{ id := 1, date := 100, department_id := 1, employee_id := 1,
                    override := true }],
    holidays := [] }

/- Generic lemmas about the embedding. -/

theorem mem_assignIds {r : Schedule} :
    ∀ {c : Nat} {l : List Schedule}, r ∈ assignIds c l →
      ∃ r0 ∈ l, r.date = r0.date ∧ r.department_id = r0.department_id ∧
        r.employee_id = r0.employee_id ∧ r.override = r0.override := by
  intro c l
  induction l generalizing c with
  | nil => intro h; cases h
  | cons x xs ih =>
    intro h
    simp only [assignIds, List.mem_cons] at h
    rcases h with h | h
    · exact ⟨x, List.mem_cons_self x xs, by simp [h]⟩
    · rcases ih h with ⟨r0, hr0, hh⟩
      exact ⟨r0, List.mem_cons_of_mem _ hr0, hh⟩

theorem assignIds_filter_map (p : Schedule → Bool) (f : Schedule → Nat)
    (hp : ∀ r k, p { r with id := k } = p r) (hf : ∀ r k, f { r with id := k } = f r) :
    ∀ {c : Nat} (l : List Schedule),
      ((assignIds c l).filter p).map f = (l.filter p).map f := by
  intro c l
  induction l generalizing c with
  | nil => rfl
  | cons x xs ih =>
    simp only [assignIds, List.filter_cons, hp x c]
    cases hx : p x <;> simp [hx, ih, hf x c]

theorem assignIds_filter_length (p : Schedule → Bool)
    (hp : ∀ r k, p { r with id := k } = p r) :
    ∀ {c : Nat} (l : List Schedule),
      ((assignIds c l).filter p).length = (l.filter p).length := by
  intro c l
  induction l generalizing c with
  | nil => rfl
  | cons x xs ih =>
    simp only [assignIds, List.filter_cons, hp x c]
    cases hx : p x <;> simp [hx, ih]

/-- Structural inversion of `generate`: a successful run is either one of the two
early exits (no Saturdays left, or nothing detected as missing) or the full
rebuild described by `genAll`, `shouldDelete` and `assignIds`. -/
theorem generate_ok_inv {s : Store} {today year : Nat} {s' : Store}
    {ins del : List Schedule}
    (h : generate s today year = .ok (s', ins, del)) :
    (s' = s ∧ ins = [] ∧ del = [] ∧
      (lastSaturdayOfYear year < comingSaturday today ∨ missingByDept s today year = [])) ∨
    (∃ protos,
      genAll s (comingSaturday today) (lastSaturdayOfYear year) year
        (missingByDept s today year) = .ok protos ∧
      ins = assignIds (maxSchedId s + 1) protos ∧
      del = s.schedules.filter (fun r => shouldDelete (missingByDept s today year) r) ∧
      s' = { s with schedules :=
        s.schedules.filter (fun r => !shouldDelete (missingByDept s today year) r)
          ++ assignIds (maxSchedId s + 1) protos }) := by
  unfold generate at h
  split at h
  · rename_i hlt
    simp only [Except.ok.injEq, Prod.mk.injEq] at h
    exact Or.inl ⟨h.1.symm, h.2.1.symm, h.2.2.symm, Or.inl hlt⟩
  · split at h
    · rename_i hemp
      simp only [Except.ok.injEq, Prod.mk.injEq] at h
      exact Or.inl ⟨h.1.symm, h.2.1.symm, h.2.2.symm, Or.inr (List.isEmpty_iff.mp hemp)⟩
    · split at h
      · exact Except.noConfusion h
      · rename_i protos heq
        simp only [Except.ok.injEq, Prod.mk.injEq] at h
        exact Or.inr ⟨protos, heq, h.2.1.symm, h.2.2.symm, h.1.symm⟩

theorem missingFor_some {s : Store} {cs : Nat} {allSats : List Nat} {d : Department}
    {ts : List Nat} (h : missingFor s cs allSats d = some ts) :
    (∀ x ∈ ts, x ∈ allSats) ∧ (allSats.Nodup → ts.Nodup) := by
  unfold missingFor at h
  dsimp only at h
  split at h
  · simp only [Option.some.injEq] at h
    subst h
    exact ⟨fun x hx => (List.mem_filter.mp hx).1, fun hnd => hnd.filter _⟩
  · split at h
    · simp only [Option.some.injEq] at h
      subst h
      exact ⟨fun x hx => hx, id⟩
    · exact Option.noConfusion h

theorem mem_missingByDept {s : Store} {today year : Nat} {d : Department}
    {ts : List Nat} (h : (d, ts) ∈ missingByDept s today year) :
    d ∈ s.departments ∧
    missingFor s (comingSaturday today) (targetSats s today year) d = some ts := by
  unfold missingByDept at h
  rcases List.mem_filterMap.mp h with ⟨d0, hd0, heq⟩
  rcases Option.map_eq_some'.mp heq with ⟨ts0, hts0, heq2⟩
  obtain ⟨h1, h2⟩ := Prod.mk.injEq .. ▸ heq2
  subst h1
  subst h2
  exact ⟨hd0, hts0⟩

theorem saturdaysBetween_nodup (a b : Nat) : (saturdaysBetween a b).Nodup := by
  unfold saturdaysBetween
  split
  · exact List.nodup_nil
  · exact (List.nodup_range _).map (fun x y hxy => by omega)

theorem targetSats_nodup (s : Store) (today year : Nat) :
    (targetSats s today year).Nodup :=
  (saturdaysBetween_nodup _ _).filter _

theorem filterMap_pair_fst_sublist {α β : Type} (f : α → Option β) (l : List α) :
    ((l.filterMap (fun d => (f d).map (fun ts => (d, ts)))).map Prod.fst).Sublist l := by
  induction l with
  | nil => simp
  | cons x xs ih =>
    cases hfx : f x <;> simp only [List.filterMap_cons, hfx, Option.map_none',
      Option.map_some', List.map_cons]
    · exact ih.cons x
    · exact ih.cons₂ x

theorem missingByDept_ids_nodup {s : Store} {today year : Nat}
    (h : (s.departments.map (fun d => d.id)).Nodup) :
    ((missingByDept s today year).map (fun p => p.1.id)).Nodup := by
  have hs := filterMap_pair_fst_sublist
    (fun d => missingFor s (comingSaturday today) (targetSats s today year) d)
    s.departments
  have hmap : (missingByDept s today year).map (fun p => p.1.id)
      = ((missingByDept s today year).map Prod.fst).map (fun d => d.id) := by
    rw [List.map_map]; rfl
  rw [hmap]
  exact List.Nodup.sublist (hs.map (fun d => d.id)) h

theorem dept_eq_of_id_eq {s : Store} (h : (s.departments.map (fun d => d.id)).Nodup)
    {a b : Department} (ha : a ∈ s.departments) (hb : b ∈ s.departments)
    (hid : a.id = b.id) : a = b :=
  List.inj_on_of_nodup_map h ha hb hid

/-- Outside the group-rostered, fixed-member and paired-substitute branches, one
cadence step assigns at most one employee. -/
theorem deptAssign_len_le_one {s : Store} {endd year : Nat} {d : Department}
    {emps : List Employee} {idx sat : Nat} {q chosen q1 : List Employee}
    (h1 : d.name ≠ DEPT_SPEC_OPS) (h2 : d.name ≠ DEPT_CAR) (h3 : d.name ≠ DEPT_SHOP)
    (h : deptAssign s endd year d emps idx sat q = .ok (chosen, q1)) :
    chosen.length ≤ 1 := by
  unfold deptAssign at h
  rw [if_neg (by simpa using h1), if_neg (by simpa using h2)] at h
  repeat' split at h
  all_goals
    first
    | exact Except.noConfusion h
    | (simp_all; done)
    | (simp only [Except.ok.injEq, Prod.mk.injEq] at h
       obtain ⟨ha, hb⟩ := h
       subst ha
       simp)

/-- On the group-rostered branch, one cadence step assigns exactly the group whose
number is `(idx % 4) + 1`, where `idx` is the position in the target-date list. -/
theorem deptAssign_spec_ops {s : Store} {endd year : Nat} {d : Department}
    {emps : List Employee} {idx sat : Nat} {q : List Employee}
    (hname : d.name = DEPT_SPEC_OPS) :
    deptAssign s endd year d emps idx sat q
      = .ok (specOpsGroup s d (idx % 4 + 1), q) := by
  unfold deptAssign
  rw [if_pos (by simp [hname])]
  simp

/-- Every row emitted by the per-department loop carries the department id, the
override flag false, and a date from the target list. -/
theorem deptLoop_ok_mem {s : Store} {endd year : Nat} {d : Department}
    {emps : List Employee} :
    ∀ {ts : List Nat} {idx : Nat} {q : List Employee} {rows : List Schedule},
      deptLoop s endd year d emps idx ts q = .ok rows →
      ∀ r ∈ rows, r.department_id = d.id ∧ r.override = false ∧ r.date ∈ ts := by
  intro ts
  induction ts with
  | nil =>
    intro idx q rows h r hr
    simp only [deptLoop, Except.ok.injEq] at h
    subst h
    cases hr
  | cons sat rest ih =>
    intro idx q rows h r hr
    simp only [deptLoop] at h
    split at h
    · exact Except.noConfusion h
    · rename_i chosen q1 heq
      split at h
      · exact Except.noConfusion h
      · rename_i tail heq2
        simp only [Except.ok.injEq] at h
        subst h
        rcases List.mem_append.mp hr with hl | hr2
        · rcases List.mem_map.mp hl with ⟨e, _, rfl⟩
          exact ⟨rfl, rfl, List.mem_cons_self _ _⟩
        · rcases ih heq2 r hr2 with ⟨ha1, ha2, ha3⟩
          exact ⟨ha1, ha2, List.mem_cons_of_mem _ ha3⟩

/-- Outside the three multi-insert branches, the per-department loop emits at most
one row per date when the target dates are distinct. -/
theorem deptLoop_filter_len {s : Store} {endd year : Nat} {d : Department}
    {emps : List Employee}
    (h1 : d.name ≠ DEPT_SPEC_OPS) (h2 : d.name ≠ DEPT_CAR) (h3 : d.name ≠ DEPT_SHOP) :
    ∀ {ts : List Nat} {idx : Nat} {q : List Employee} {rows : List Schedule}
      {dd : Nat}, ts.Nodup →
      deptLoop s endd year d emps idx ts q = .ok rows →
      (rows.filter (fun r => r.date == dd)).length ≤ 1 := by
  intro ts
  induction ts with
  | nil =>
    intro idx q rows dd _ h
    simp only [deptLoop, Except.ok.injEq] at h
    subst h
    simp
  | cons sat rest ih =>
    intro idx q rows dd hnd h
    simp only [deptLoop] at h
    split at h
    · exact Except.noConfusion h
    · rename_i chosen q1 heq
      split at h
      · exact Except.noConfusion h
      · rename_i tail heq2
        simp only [Except.ok.injEq] at h
        subst h
        rw [List.filter_append, List.length_append]
        by_cases hdd : dd = sat
        · have htail : tail.filter (fun r => r.date == dd) = [] := by
            rw [List.filter_eq_nil_iff]
            intro r hr
            simp only [beq_iff_eq]
            intro hdate
            have hmemr := (deptLoop_ok_mem heq2 r hr).2.2
            have hds : r.date = sat := hdate.trans hdd
            exact (List.nodup_cons.mp hnd).1 (hds ▸ hmemr)
          have hhead : ((chosen.map (fun e => mkRow sat d.id e.id)).filter
              (fun r => r.date == dd)).length ≤ 1 := by
            calc ((chosen.map (fun e => mkRow sat d.id e.id)).filter
                  (fun r => r.date == dd)).length
                ≤ (chosen.map (fun e => mkRow sat d.id e.id)).length :=
                  List.length_filter_le _ _
              _ = chosen.length := List.length_map _ _
              _ ≤ 1 := deptAssign_len_le_one h1 h2 h3 heq
          rw [htail]
          simpa using hhead
        · have hhead : (chosen.map (fun e => mkRow sat d.id e.id)).filter
              (fun r => r.date == dd) = [] := by
            rw [List.filter_eq_nil_iff]
            intro r hr
            rcases List.mem_map.mp hr with ⟨e, _, rfl⟩
            simp only [mkRow, beq_iff_eq]
            exact fun hcon => hdd hcon.symm
          rw [hhead]
          simpa using ih (List.nodup_cons.mp hnd).2 heq2

/-- On the group-rostered branch, when the target dates are distinct, the rows the
loop emits on the `i`-th target date are exactly the group `((idx + i) % 4) + 1`. -/
theorem deptLoop_spec_filter {s : Store} {endd year : Nat} {d : Department}
    {emps : List Employee} (hname : d.name = DEPT_SPEC_OPS) :
    ∀ {ts : List Nat} {idx : Nat} {q : List Employee} {rows : List Schedule}
      (i : Nat) (hi : i < ts.length), ts.Nodup →
      deptLoop s endd year d emps idx ts q = .ok rows →
      ((rows.filter (fun r => r.date == ts.get ⟨i, hi⟩)).map (fun r => r.employee_id))
        = (specOpsGroup s d ((idx + i) % 4 + 1)).map (fun e => e.id) := by
  intro ts
  induction ts with
  | nil =>
    intro idx q rows i hi
    exact absurd hi (by simp)
  | cons sat rest ih =>
    intro idx q rows i hi hnd h
    simp only [deptLoop] at h
    split at h
    · exact Except.noConfusion h
    · rename_i chosen q1 heq
      rw [deptAssign_spec_ops hname] at heq
      simp only [Except.ok.injEq, Prod.mk.injEq] at heq
      obtain ⟨hch, hq⟩ := heq
      subst hch
      subst hq
      split at h
      · exact Except.noConfusion h
      · rename_i tail heq2
        simp only [Except.ok.injEq] at h
        subst h
        cases i with
        | zero =>
          have hget : (sat :: rest).get ⟨0, hi⟩ = sat := rfl
          rw [hget, List.filter_append]
          have hhead : ((specOpsGroup s d (idx % 4 + 1)).map
              (fun e => mkRow sat d.id e.id)).filter (fun r => r.date == sat)
              = (specOpsGroup s d (idx % 4 + 1)).map (fun e => mkRow sat d.id e.id) := by
            rw [List.filter_eq_self]
            intro r hr
            rcases List.mem_map.mp hr with ⟨e, _, rfl⟩
            simp [mkRow]
          have htail : tail.filter (fun r => r.date == sat) = [] := by
            rw [List.filter_eq_nil_iff]
            intro r hr
            simp only [beq_iff_eq]
            intro hdate
            have hmemr := (deptLoop_ok_mem heq2 r hr).2.2
            exact (List.nodup_cons.mp hnd).1 (hdate ▸ hmemr)
          rw [hhead, htail, List.append_nil, List.map_map]
          simp [mkRow]
        | succ j =>
          have hj : j < rest.length := by simpa using hi
          have hget : (sat :: rest).get ⟨j + 1, hi⟩ = rest.get ⟨j, hj⟩ := rfl
          rw [hget, List.filter_append]
          have hne : sat ≠ rest.get ⟨j, hj⟩ := by
            intro hcon
            exact (List.nodup_cons.mp hnd).1 (hcon ▸ List.get_mem rest j hj)
          have hhead : ((specOpsGroup s d (idx % 4 + 1)).map
              (fun e => mkRow sat d.id e.id)).filter
              (fun r => r.date == rest.get ⟨j, hj⟩) = [] := by
            rw [List.filter_eq_nil_iff]
            intro r hr
            rcases List.mem_map.mp hr with ⟨e, _, rfl⟩
            simp only [mkRow, beq_iff_eq]
            exact hne
          rw [hhead, List.nil_append]
          have := ih j hj (List.nodup_cons.mp hnd).2 heq2
          rw [this]
          have harith : idx + 1 + j = idx + (j + 1) := by omega
          rw [harith]

/-- Every row produced by `genAll` belongs to one of the repaired departments and
carries a date from that department's target list and override false. -/
theorem genAll_ok_mem {s : Store} {cs endd year : Nat} :
    ∀ {missing : List (Department × List Nat)} {protos : List Schedule},
      genAll s cs endd year missing = .ok protos →
      ∀ r ∈ protos, ∃ p ∈ missing,
        r.department_id = p.1.id ∧ r.override = false ∧ r.date ∈ p.2 := by
  intro missing
  induction missing with
  | nil =>
    intro protos h r hr
    simp only [genAll, Except.ok.injEq] at h
    subst h
    cases hr
  | cons p rest ih =>
    intro protos h r hr
    obtain ⟨d, ts⟩ := p
    simp only [genAll] at h
    split at h
    · exact Except.noConfusion h
    · rename_i rows heq
      split at h
      · exact Except.noConfusion h
      · rename_i tail heq2
        simp only [Except.ok.injEq] at h
        subst h
        rcases List.mem_append.mp hr with hl | hr2
        · simp only [deptGenerate] at heq
          have hf := deptLoop_ok_mem heq r hl
          exact ⟨(d, ts), List.mem_cons_self _ _, hf.1, hf.2.1, hf.2.2⟩
        · rcases ih heq2 r hr2 with ⟨p2, hp2, hh⟩
          exact ⟨p2, List.mem_cons_of_mem _ hp2, hh⟩

/-- Departments other than the one under scrutiny contribute no rows to a filter
on its department id. -/
theorem genAll_filter_other {s : Store} {cs endd year : Nat}
    {missing : List (Department × List Nat)} {protos : List Schedule}
    {deptId dd : Nat}
    (hok : genAll s cs endd year missing = .ok protos)
    (hne : ∀ p ∈ missing, p.1.id ≠ deptId) :
    protos.filter (fun r => r.department_id == deptId && r.date == dd) = [] := by
  rw [List.filter_eq_nil_iff]
  intro r hr
  rcases genAll_ok_mem hok r hr with ⟨p, hp, hid, _, _⟩
  simp only [Bool.and_eq_true, beq_iff_eq, not_and]
  intro hcon
  exact absurd (hid ▸ hcon) (hne p hp)

/-- Across a whole `genAll` run, a department outside the multi-insert branches
receives at most one row per date. -/
theorem genAll_filter_len {s : Store} {cs endd year : Nat} :
    ∀ {missing : List (Department × List Nat)} {protos : List Schedule}
      {dept : Department} {dd : Nat},
      genAll s cs endd year missing = .ok protos →
      (missing.map (fun p => p.1.id)).Nodup →
      (∀ p ∈ missing, p.1.id = dept.id →
        p.1.name ≠ DEPT_SPEC_OPS ∧ p.1.name ≠ DEPT_CAR ∧ p.1.name ≠ DEPT_SHOP ∧
          p.2.Nodup) →
      (protos.filter (fun r => r.department_id == dept.id && r.date == dd)).length
        ≤ 1 := by
  intro missing
  induction missing with
  | nil =>
    intro protos dept dd h _ _
    simp only [genAll, Except.ok.injEq] at h
    subst h
    simp
  | cons p rest ih =>
    intro protos dept dd h hnd hprop
    obtain ⟨d, ts⟩ := p
    simp only [genAll] at h
    split at h
    · exact Except.noConfusion h
    · rename_i rows heq
      split at h
      · exact Except.noConfusion h
      · rename_i tail heq2
        simp only [Except.ok.injEq] at h
        subst h
        rw [List.filter_append, List.length_append]
        simp only [deptGenerate] at heq
        by_cases hd : d.id = dept.id
        · have hp1 := hprop (d, ts) (List.mem_cons_self _ _) hd
          have hrows : (rows.filter
              (fun r => r.department_id == dept.id && r.date == dd)).length ≤ 1 := by
            have hconv : rows.filter
                (fun r => r.department_id == dept.id && r.date == dd)
                = rows.filter (fun r => r.date == dd) := by
              apply List.filter_congr
              intro r hr
              have hdid := (deptLoop_ok_mem heq r hr).1
              simp [hdid, hd]
            rw [hconv]
            exact deptLoop_filter_len hp1.1 hp1.2.1 hp1.2.2.1 hp1.2.2.2 heq
          have htail : (tail.filter
              (fun r => r.department_id == dept.id && r.date == dd)).length = 0 := by
            rw [genAll_filter_other heq2 ?hne, List.length_nil]
            case hne =>
              intro p2 hp2 hcon
              have hmm : d.id ∈ List.map (fun p => p.1.id) rest := by
                rw [hd, ← hcon]
                exact List.mem_map_of_mem (fun p => p.1.id) hp2
              exact (List.nodup_cons.mp hnd).1 hmm
          omega
        · have hrows : rows.filter
              (fun r => r.department_id == dept.id && r.date == dd) = [] := by
            rw [List.filter_eq_nil_iff]
            intro r hr
            have hdid := (deptLoop_ok_mem heq r hr).1
            simp only [Bool.and_eq_true, beq_iff_eq, not_and]
            intro hcon
            exact absurd (hdid ▸ hcon) hd
          rw [hrows]
          simp only [List.length_nil, Nat.zero_add]
          exact ih heq2 (List.nodup_cons.mp hnd).2
            (fun p2 hp2 => hprop p2 (List.mem_cons_of_mem _ hp2))

/-- Across a whole `genAll` run, when the group-rostered department is among the
repaired departments, the rows it receives on the `i`-th date of its target list
are exactly its group `(i % 4) + 1`. -/
theorem genAll_spec_filter {s : Store} {cs endd year : Nat} :
    ∀ {missing : List (Department × List Nat)} {protos : List Schedule}
      {dept : Department} {targets : List Nat} (i : Nat) (hi : i < targets.length),
      genAll s cs endd year missing = .ok protos →
      (missing.map (fun p => p.1.id)).Nodup →
      (dept, targets) ∈ missing →
      dept.name = DEPT_SPEC_OPS →
      targets.Nodup →
      ((protos.filter (fun r => r.department_id == dept.id
          && r.date == targets.get ⟨i, hi⟩)).map (fun r => r.employee_id))
        = (specOpsGroup s dept (i % 4 + 1)).map (fun e => e.id) := by
  intro missing
  induction missing with
  | nil =>
    intro protos dept targets i hi h _ hmem
    cases hmem
  | cons p rest ih =>
    intro protos dept targets i hi h hnd hmem hname hndt
    obtain ⟨d, ts⟩ := p
    simp only [genAll] at h
    split at h
    · exact Except.noConfusion h
    · rename_i rows heq
      split at h
      · exact Except.noConfusion h
      · rename_i tail heq2
        simp only [Except.ok.injEq] at h
        subst h
        rw [List.filter_append, List.map_append]
        simp only [deptGenerate] at heq
        rcases List.mem_cons.mp hmem with hhead | htail
        · obtain ⟨hd, hts⟩ := Prod.mk.injEq .. ▸ hhead
          subst hd
          subst hts
          have hconv : rows.filter
              (fun r => r.department_id == dept.id && r.date == targets.get ⟨i, hi⟩)
              = rows.filter (fun r => r.date == targets.get ⟨i, hi⟩) := by
            apply List.filter_congr
            intro r hr
            have hdid := (deptLoop_ok_mem heq r hr).1
            simp [hdid]
          have hzero := deptLoop_spec_filter hname i hi hndt heq
          have htl : tail.filter
              (fun r => r.department_id == dept.id
                && r.date == targets.get ⟨i, hi⟩) = [] := by
            apply genAll_filter_other heq2
            intro p2 hp2 hcon
            have hmm : dept.id ∈ List.map (fun p => p.1.id) rest := by
              rw [← hcon]
              exact List.mem_map_of_mem (fun p => p.1.id) hp2
            exact (List.nodup_cons.mp hnd).1 hmm
          rw [hconv, htl, hzero]
          simp
        · have hne : d.id ≠ dept.id := by
            intro hcon
            have hmm : d.id ∈ List.map (fun p => p.1.id) rest := by
              rw [hcon]
              exact List.mem_map_of_mem (fun p => p.1.id) htail
            exact (List.nodup_cons.mp hnd).1 hmm
          have hrows : rows.filter
              (fun r => r.department_id == dept.id
                && r.date == targets.get ⟨i, hi⟩) = [] := by
            rw [List.filter_eq_nil_iff]
            intro r hr
            have hdid := (deptLoop_ok_mem heq r hr).1
            simp only [Bool.and_eq_true, beq_iff_eq, not_and]
            intro hcon
            exact absurd (hdid ▸ hcon) hne
          rw [hrows]
          simp only [List.map_nil, List.nil_append]
          exact ih i hi heq2 (List.nodup_cons.mp hnd).2 htail hname hndt

/-- Every row inserted by a successful repair run is dated inside the
holiday-excluded Saturday window of that run. -/
theorem generate_ins_dates {s : Store} {today year : Nat} {s' : Store}
    {ins del : List Schedule} (hg : generate s today year = .ok (s', ins, del)) :
    ∀ r ∈ ins, r.date ∈ targetSats s today year := by
  rcases generate_ok_inv hg with ⟨_, hins, _, _⟩ | ⟨protos, hok, hins, _, _⟩
  · subst hins
    intro r hr
    cases hr
  · subst hins
    intro r hr
    rcases mem_assignIds hr with ⟨r0, hr0, hdate, _, _, _⟩
    rcases genAll_ok_mem hok r0 hr0 with ⟨p, hp, _, _, hdp⟩
    obtain ⟨pd, pts⟩ := p
    have hm := mem_missingByDept hp
    rw [hdate]
    exact (missingFor_some hm.2).1 _ hdp

/-- Every row inserted by a successful repair run has override false. -/
theorem generate_ins_override {s : Store} {today year : Nat} {s' : Store}
    {ins del : List Schedule} (hg : generate s today year = .ok (s', ins, del)) :
    ins.all (fun r => r.override == false) = true := by
  rw [List.all_eq_true]
  intro r hr
  rcases generate_ok_inv hg with ⟨_, hins, _, _⟩ | ⟨protos, hok, hins, _, _⟩
  · subst hins
    cases hr
  · subst hins
    rcases mem_assignIds hr with ⟨r0, hr0, _, _, _, hov⟩
    rcases genAll_ok_mem hok r0 hr0 with ⟨p, _, _, hov0, _⟩
    rw [hov, hov0]
    rfl

/-- A date in the repair window never carries a Holiday record. -/
theorem targetSats_excludes_holiday {s : Store} {today year x : Nat}
    (hx : x ∈ targetSats s today year)
    (hh : s.holidays.any (fun h => h.date == x) = true) : False := by
  simp only [targetSats] at hx
  have hfil := (List.mem_filter.mp hx).2
  rcases List.any_eq_true.mp hh with ⟨h0, hh0, hd0⟩
  simp only [beq_iff_eq] at hd0
  have hxmem : x ∈ s.holidays.map (fun h => h.date) :=
    hd0 ▸ List.mem_map_of_mem (fun h => h.date) hh0
  have hcont : (s.holidays.map (fun h => h.date)).contains x = true := by
    rw [List.contains_iff_exists_mem_beq]
    exact ⟨x, hxmem, by simp⟩
  rw [hcont] at hfil
  simp at hfil

/- Claim theorems. -/

/-- C9: for every reference date T, `comingSaturday T` falls on a Saturday,
`T ≤ comingSaturday T ≤ T + 6`, and if T is itself a Saturday then
`comingSaturday T = T`. -/
theorem coming_saturday_spec (T : Nat) :
    weekday (comingSaturday T) = 5 ∧ T ≤ comingSaturday T ∧
      comingSaturday T ≤ T + 6 ∧ (weekday T = 5 → comingSaturday T = T) := by
  unfold comingSaturday weekday
  omega

/-- Witness for C9 at the concrete Saturday 2025-12-20. -/
theorem coming_saturday_spec_witness :
    weekday (comingSaturday dec20y25) = 5 ∧ dec20y25 ≤ comingSaturday dec20y25 ∧
      comingSaturday dec20y25 ≤ dec20y25 + 6 ∧
      (weekday dec20y25 = 5 → comingSaturday dec20y25 = dec20y25) :=
  coming_saturday_spec dec20y25

/-- C1 counterexample: in `storeC1` (group-rostered department with only group-1
members) the first repair run covers only every fourth target date, so the second
run, with no intervening data change, re-enumerates the still-empty dates from
index 0 and inserts one more row: the second invocation performs a write. -/
theorem repair_not_idempotent_cex :
    (generateInserts storeC1 dec20y25 2025).length = 1 ∧
    (generateInserts (runGenerate storeC1 dec20y25 2025) dec20y25 2025).length = 1 := by
  decide

/-- C1 (amended): a repair run that detects no department with an uncovered
target date or an unscheduled employee performs no writes; hence running repair
twice is write-free the second time only when the first run left every
department settled. -/
theorem repair_idempotent_when_settled (s s1 : Store) (today year : Nat)
    (ins1 del1 : List Schedule)
    (h1 : generate s today year = .ok (s1, ins1, del1))
    (h2 : (missingByDept s1 today year).isEmpty = true) :
    generate s1 today year = .ok (s1, [], []) := by
  unfold generate
  split <;> simp [h2]

/-- Witness for the amended C1: one weekly department, one employee; the first
run settles the schedule and the second run writes nothing. -/
theorem repair_idempotent_when_settled_witness :
    generate (runGenerate storeC1w dec20y25 2025) dec20y25 2025
      = .ok (runGenerate storeC1w dec20y25 2025, [], []) :=
  repair_idempotent_when_settled storeC1w (runGenerate storeC1w dec20y25 2025)
    dec20y25 2025 (generateInserts storeC1w dec20y25 2025)
    (generateDeletes storeC1w dec20y25 2025) (by rfl) (by decide)

/-- C2: every Schedule row with override true that exists before a successful
repair run still exists, with the same date, department, employee and override
flag, after the run. -/
theorem override_rows_preserved (s : Store) (today year : Nat) (s' : Store)
    (ins del : List Schedule)
    (hg : generate s today year = .ok (s', ins, del)) :
    ((s.schedules.filter (fun r => r.override)).all
      (fun r => decide (r ∈ s'.schedules))) = true := by
  rw [List.all_eq_true]
  intro r hr
  rw [decide_eq_true_eq]
  have hro : r.override = true := by
    have := (List.mem_filter.mp hr).2
    simpa using this
  have hmem : r ∈ s.schedules := (List.mem_filter.mp hr).1
  rcases generate_ok_inv hg with ⟨hseq, _, _, _⟩ | ⟨protos, hok, hins, hdel, hseq⟩
  · rw [hseq]
    exact hmem
  · rw [hseq]
    apply List.mem_append_left
    rw [List.mem_filter]
    refine ⟨hmem, ?_⟩
    simp [shouldDelete, hro]

/-- Witness for C2: the override row of `storeC2w` survives a repair run. -/
theorem override_rows_preserved_witness :
    ((storeC2w.schedules.filter (fun r => r.override)).all
      (fun r => decide (r ∈ (runGenerate storeC2w dec20y25 2025).schedules))) = true :=
  override_rows_preserved storeC2w dec20y25 2025 (runGenerate storeC2w dec20y25 2025)
    (generateInserts storeC2w dec20y25 2025) (generateDeletes storeC2w dec20y25 2025)
    (by rfl)

/-- C3 counterexample: the Shop department is not in the multi-slot-permitted
set, yet a repair run over an empty schedule leaves two rows on one
(department, date): the drawn Edwin plus the paired Tommy. -/
theorem shop_double_row_cex :
    ((runGenerate storeC3 dec20y25 2025).schedules.filter
      (fun r => r.department_id == 1 && r.date == dec20y25)).length = 2 := by
  rfl

/-- C3 (amended): for a department outside the multi-slot-permitted set
(group-rostered, fixed-member, COL/DEN) and distinct from the paired-substitute
department (Shop), a repair run inserts at most one Schedule row per
(department, date); pre-existing rows, including preserved overrides, may still
make the total on a date exceed one. -/
theorem single_slot_insert_bound (s : Store) (today year dd : Nat)
    (dept : Department) (s' : Store) (ins del : List Schedule)
    (hids : (s.departments.map (fun d => d.id)).Nodup)
    (hmem : dept ∈ s.departments)
    (h1 : dept.name ≠ DEPT_SPEC_OPS) (h2 : dept.name ≠ DEPT_CAR)
    (h3 : dept.name ≠ DEPT_COLDEN) (h4 : dept.name ≠ DEPT_SHOP)
    (hg : generate s today year = .ok (s', ins, del)) :
    (ins.filter (fun r => r.department_id == dept.id && r.date == dd)).length ≤ 1 := by
  rcases generate_ok_inv hg with ⟨_, hins, _, _⟩ | ⟨protos, hok, hins, _, _⟩
  · subst hins
    simp
  · subst hins
    rw [assignIds_filter_length
      (fun r => r.department_id == dept.id && r.date == dd) (fun r k => rfl)]
    apply genAll_filter_len hok (missingByDept_ids_nodup hids)
    intro p hp hid
    obtain ⟨pd, pts⟩ := p
    have hm := mem_missingByDept hp
    have hEq : pd = dept := dept_eq_of_id_eq hids hm.1 hmem hid
    subst hEq
    exact ⟨h1, h2, h4, (missingFor_some hm.2).2 (targetSats_nodup s today year)⟩

/-- Witness for the amended C3: a plain weekly department receives at most one
inserted row on the repaired Saturday. -/
theorem single_slot_insert_bound_witness :
    ((generateInserts storeC3w dec20y25 2025).filter
      (fun r => r.department_id == deptC3w.id && r.date == dec20y25)).length ≤ 1 :=
  single_slot_insert_bound storeC3w dec20y25 2025 dec20y25 deptC3w
    (runGenerate storeC3w dec20y25 2025) (generateInserts storeC3w dec20y25 2025)
    (generateDeletes storeC3w dec20y25 2025) (by decide) (by decide) (by decide)
    (by decide) (by decide) (by decide) (by rfl)

/-- C4 counterexample: repairing `storeC4` on 2025-12-20 (year-wide week index
50, so the spec's rule `(weekIndex mod 4) + 1` requires group 3, which is empty)
nevertheless assigns the group-1 employee, because the code indexes groups by the
position in the run's target-date list, not by `weekIndexWithinYear`. -/
theorem spec_ops_group_index_cex :
    ((generateInserts storeC4 dec20y25 2025).filter
      (fun r => r.date == dec20y25)).map (fun r => r.employee_id) = [1] ∧
    weekIndexWithinYear dec20y25 2025 = some 50 ∧
    (specOpsGroup storeC4 deptC4 ((50 % 4) + 1)).map (fun e => e.id) = [] := by
  decide

/-- C4 (amended): for every repaired target date of the group-rostered
department, the employees the run inserts on the i-th date of the department's
target-date list are exactly its members whose group number equals
`(i mod 4) + 1` — the cadence is indexed by position in the target list, not by
`weekIndexWithinYear`. -/
theorem spec_ops_assignment_by_target_position (s : Store) (today year : Nat)
    (dept : Department) (targets : List Nat) (s' : Store) (ins del : List Schedule)
    (i : Nat) (hi : i < targets.length)
    (hids : (s.departments.map (fun d => d.id)).Nodup)
    (hname : dept.name = DEPT_SPEC_OPS)
    (hmiss : (dept, targets) ∈ missingByDept s today year)
    (hg : generate s today year = .ok (s', ins, del)) :
    ((ins.filter (fun r => r.department_id == dept.id
        && r.date == targets.get ⟨i, hi⟩)).map (fun r => r.employee_id))
      = (specOpsGroup s dept (i % 4 + 1)).map (fun e => e.id) := by
  have hm := mem_missingByDept hmiss
  have hndt : targets.Nodup := (missingFor_some hm.2).2 (targetSats_nodup s today year)
  rcases generate_ok_inv hg with ⟨_, hins, _, hcase⟩ | ⟨protos, hok, hins, _, _⟩
  · exfalso
    rcases hcase with hlt | hempty
    · have hx : targets.get ⟨i, hi⟩ ∈ targetSats s today year :=
        (missingFor_some hm.2).1 _ (List.get_mem targets i hi)
      have hts : targetSats s today year = [] := by
        unfold targetSats saturdaysBetween
        rw [if_pos hlt]
        rfl
      rw [hts] at hx
      cases hx
    · rw [hempty] at hmiss
      cases hmiss
  · subst hins
    rw [assignIds_filter_map
      (fun r => r.department_id == dept.id && r.date == targets.get ⟨i, hi⟩)
      (fun r => r.employee_id) (fun r k => rfl) (fun r k => rfl)]
    exact genAll_spec_filter i hi hok (missingByDept_ids_nodup hids) hmiss hname hndt

/-- C5 (code bug): the cyclic departments build their year sequence with
`saturdays_between(date(year,1,1), end)`, which steps 7 days from Jan 1 itself
rather than from the first Saturday on or after Jan 1.  For 2025 (Jan 1 a
Wednesday, weekday 2) no Saturday occurs in that sequence, `list.index(sat)`
raises ValueError and the repair run fails; for 2022 (Jan 1 a Saturday) the run
succeeds and the on-weeks are exactly the even `weekIndexWithinYear` dates
(indices 50 and 52), as the claim describes. -/
theorem cyclic_cadence_jan1_anchor_bug :
    generateFails storeC5 dec20y25 2025 = true ∧
    weekday (jan1 2025) = 2 ∧
    generateFails storeC5 dec10y22 2022 = false ∧
    (generateInserts storeC5 dec10y22 2022).map (fun r => r.date)
      = [dec17y22, dec31y22] ∧
    weekIndexWithinYear dec17y22 2022 = some 50 ∧
    weekIndexWithinYear dec31y22 2022 = some 52 := by
  decide

/-- C6 (code bug): with no employee named Corey, the comprehension
`[e for e in car_emps if corey_emp and e.id != corey_emp.id]` keeps nobody, so
the CAR rotation is built empty and a repair run inserts no CAR rows at all —
the rotation slot is not filled, even though the department has an employee and
the run succeeds. -/
theorem car_missing_corey_empties_rotation :
    storeC6.employees.length = 1 ∧
    coreyOf storeC6 { id := 1, name := DEPT_CAR } = none ∧
    carRotation storeC6 { id := 1, name := DEPT_CAR } = [] ∧
    generateFails storeC6 dec20y25 2025 = false ∧
    generateInserts storeC6 dec20y25 2025 = [] := by
  decide

/-- C7: recordHoliday leaves a Holiday record on the date, deletes every
Schedule row on that date, and a subsequent successful repair run still has no
row on that date, because the date is excluded from the target window. -/
theorem holiday_blocks_date (s : Store) (d : Nat) (note : Option String)
    (today year : Nat) (s2 : Store) (ins del : List Schedule)
    (hg : generate (addHoliday s d note) today year = .ok (s2, ins, del)) :
    ((addHoliday s d note).holidays.any (fun h => h.date == d)) = true ∧
    ((addHoliday s d note).schedules.all (fun r => r.date != d)) = true ∧
    (s2.schedules.all (fun r => r.date != d)) = true := by
  have hpart1 : ((addHoliday s d note).holidays.any (fun h => h.date == d)) = true := by
    unfold addHoliday
    dsimp only
    split
    · rename_i hc
      rcases List.any_eq_true.mp hc with ⟨h0, hh0, hd0⟩
      rw [List.any_eq_true]
      refine ⟨if h0.date == d then { h0 with note := note } else h0,
        List.mem_map_of_mem _ hh0, ?_⟩
      simp only [beq_iff_eq] at hd0
      simp [hd0]
    · rw [List.any_eq_true]
      exact ⟨{ date := d, note := note },
        List.mem_append_right _ (List.mem_singleton.mpr rfl), by simp⟩
  have hpart2 : ∀ r ∈ (addHoliday s d note).schedules, (r.date != d) = true := by
    intro r hr
    unfold addHoliday at hr
    dsimp only at hr
    have := (List.mem_filter.mp hr).2
    simpa using this
  refine ⟨hpart1, ?_, ?_⟩
  · rw [List.all_eq_true]
    exact hpart2
  · rw [List.all_eq_true]
    intro r hr
    rcases generate_ok_inv hg with ⟨hseq, _, _, _⟩ | ⟨protos, hok, hins, hdel, hseq⟩
    · rw [hseq] at hr
      exact hpart2 r hr
    · rw [hseq] at hr
      rcases List.mem_append.mp hr with hl | hrins
      · exact hpart2 r (List.mem_filter.mp hl).1
      · rw [← hins] at hrins
        have hdate : r.date ∈ targetSats (addHoliday s d note) today year :=
          generate_ins_dates hg r hrins
        rw [bne_iff_ne]
        intro hcon
        exact targetSats_excludes_holiday (hcon ▸ hdate) hpart1

/-- Witness for C7: recording a holiday on 2025-12-20 deletes the existing row
and the next repair run regenerates only the remaining Saturday. -/
theorem holiday_blocks_date_witness :
    ((addHoliday storeC7w dec20y25 none).holidays.any
      (fun h => h.date == dec20y25)) = true ∧
    ((addHoliday storeC7w dec20y25 none).schedules.all
      (fun r => r.date != dec20y25)) = true ∧
    ((runGenerate (addHoliday storeC7w dec20y25 none) dec20y25 2025).schedules.all
      (fun r => r.date != dec20y25)) = true :=
  holiday_blocks_date storeC7w dec20y25 none dec20y25 2025
    (runGenerate (addHoliday storeC7w dec20y25 none) dec20y25 2025)
    (generateInserts (addHoliday storeC7w dec20y25 none) dec20y25 2025)
    (generateDeletes (addHoliday storeC7w dec20y25 none) dec20y25 2025) (by rfl)

/-- C8: when a row for employee A on date A and one for employee B on date B
both exist and the resolver picks them, `swapShift` reports success, exchanges
the two rows' employee references, marks both override, and preserves the row
count; when either date has no schedule rows it reports the not-found result
and leaves the store unchanged. -/
theorem swap_exchanges_and_marks_override
    (resolve : List Schedule → String → Option Schedule) (s t : Store)
    (e1 e2 : String) (dA dB : Nat) (r1 r2 : Schedule)
    (h1 : resolve (s.schedules.filter (fun r => r.date == dA)) e1 = some r1)
    (h2 : resolve (s.schedules.filter (fun r => r.date == dB)) e2 = some r2)
    (hm1 : r1 ∈ s.schedules.filter (fun r => r.date == dA))
    (hm2 : r2 ∈ s.schedules.filter (fun r => r.date == dB))
    (hid : r1.id ≠ r2.id)
    (ht : (t.schedules.filter (fun r => r.date == dA)).isEmpty = true ∨
          (t.schedules.filter (fun r => r.date == dB)).isEmpty = true) :
    (swapShift resolve s e1 e2 dA dB).1 = SwapResult.success ∧
    ({ r1 with employee_id := r2.employee_id, override := true }
        ∈ (swapShift resolve s e1 e2 dA dB).2.schedules) ∧
    ({ r2 with employee_id := r1.employee_id, override := true }
        ∈ (swapShift resolve s e1 e2 dA dB).2.schedules) ∧
    (swapShift resolve s e1 e2 dA dB).2.schedules.length = s.schedules.length ∧
    swapShift resolve t e1 e2 dA dB = (SwapResult.noScheduleForDates, t) := by
  have hne1 : (s.schedules.filter (fun r => r.date == dA)).isEmpty = false := by
    rw [List.isEmpty_eq_false]
    exact List.ne_nil_of_mem hm1
  have hne2 : (s.schedules.filter (fun r => r.date == dB)).isEmpty = false := by
    rw [List.isEmpty_eq_false]
    exact List.ne_nil_of_mem hm2
  have hmain : swapShift resolve s e1 e2 dA dB
      = (SwapResult.success, { s with schedules := s.schedules.map (fun r =>
          if r.id == r1.id then { r with employee_id := r2.employee_id, override := true }
          else if r.id == r2.id then { r with employee_id := r1.employee_id, override := true }
          else r) }) := by
    unfold swapShift
    dsimp only
    rw [hne1, hne2, h1, h2]
    rfl
  have hr1s : r1 ∈ s.schedules := (List.mem_filter.mp hm1).1
  have hr2s : r2 ∈ s.schedules := (List.mem_filter.mp hm2).1
  have hid2 : (r2.id == r1.id) = false := by
    rw [beq_eq_false_iff_ne]
    exact fun hcon => hid hcon.symm
  refine ⟨by rw [hmain], ?_, ?_, ?_, ?_⟩
  · rw [hmain]
    apply List.mem_map.mpr
    refine ⟨r1, hr1s, ?_⟩
    simp
  · rw [hmain]
    apply List.mem_map.mpr
    refine ⟨r2, hr2s, ?_⟩
    simp [hid2]
  · rw [hmain]
    exact List.length_map _ _
  · rcases ht with hta | htb
    · unfold swapShift
      dsimp only
      rw [hta]
      rfl
    · unfold swapShift
      dsimp only
      rw [htb]
      simp

/-- Witness for C8: swapping the two rows of `storeC8` succeeds and marks both
override; the empty store reports not-found. -/
theorem swap_exchanges_and_marks_override_witness :
    (swapShift headResolve storeC8 ("Xan") ("Yas") 100 200).1 = SwapResult.success ∧
    ({ rowC8a with employee_id := rowC8b.employee_id, override := true }
        ∈ (swapShift headResolve storeC8 ("Xan") ("Yas") 100 200).2.schedules) ∧
    ({ rowC8b with employee_id := rowC8a.employee_id, override := true }
        ∈ (swapShift headResolve storeC8 ("Xan") ("Yas") 100 200).2.schedules) ∧
    (swapShift headResolve storeC8 ("Xan") ("Yas") 100 200).2.schedules.length
      = storeC8.schedules.length ∧
    swapShift headResolve storeC8e ("Xan") ("Yas") 100 200
      = (SwapResult.noScheduleForDates, storeC8e) :=
  swap_exchanges_and_marks_override headResolve storeC8 storeC8e ("Xan") ("Yas")
    100 200 rowC8a rowC8b (by rfl) (by rfl) (by decide) (by decide) (by decide)
    (Or.inl (by decide))

/-- Rows surviving one imported CSV row with override true were already in the
store: `import_schedule` inserts only override-false rows and never flips a
flag. -/
theorem importRow_override {s : Store} {c : Nat} {row : Nat × String × String}
    {r : Schedule} (hr : r ∈ (importRow s c row).1.schedules)
    (ho : r.override = true) : r ∈ s.schedules := by
  unfold importRow at hr
  split at hr
  · exact hr
  · split at hr
    · exact hr
    · split at hr
      · split at hr
        · exact hr
        · rcases List.mem_append.mp hr with hl | hnew
          · exact hl
          · rw [List.mem_singleton] at hnew
            rw [hnew] at ho
            simp at ho
      · rcases List.mem_append.mp hr with hl | hnew
        · exact (List.mem_filter.mp hl).1
        · rw [List.mem_singleton] at hnew
          rw [hnew] at ho
          simp at ho

/-- Override rows surviving a whole CSV import were already present before it. -/
theorem importFold_override :
    ∀ (rows : List (Nat × String × String)) (s : Store) (c : Nat) (r : Schedule),
      r ∈ (rows.foldl (fun p row => importRow p.1 p.2 row) (s, c)).1.schedules →
      r.override = true → r ∈ s.schedules := by
  intro rows
  induction rows with
  | nil =>
    intro s c r hr _
    exact hr
  | cons row rest ih =>
    intro s c r hr ho
    rw [List.foldl_cons] at hr
    exact importRow_override (ih (importRow s c row).1 (importRow s c row).2 r hr ho) ho

/-- C10: every row inserted by the generate-or-repair operation carries override
false, and CSV import never produces an override row that was not already in the
store; among the core operations only swapAssignment marks rows override. -/
theorem inserts_not_override (s t : Store) (today year : Nat) (s' : Store)
    (ins del : List Schedule) (rows : List (Nat × String × String))
    (hg : generate s today year = .ok (s', ins, del)) :
    (ins.all (fun r => r.override == false)) = true ∧
    (((importSchedule t rows).schedules.filter (fun r => r.override)).all
      (fun r => decide (r ∈ t.schedules))) = true := by
  refine ⟨generate_ins_override hg, ?_⟩
  rw [List.all_eq_true]
  intro r hr
  rw [decide_eq_true_eq]
  have hsplit := List.mem_filter.mp hr
  have ho : r.override = true := by simpa using hsplit.2
  exact importFold_override rows t (maxSchedId t + 1) r hsplit.1 ho

/-- Witness for C10: a repair run over `storeC10` inserts only override-false
rows, and importing a row keeps the existing override row untouched. -/
theorem inserts_not_override_witness :
    ((generateInserts storeC10 dec20y25 2025).all
      (fun r => r.override == false)) = true ∧
    (((importSchedule storeC10 [(100, DEPT_CSR, "Ana")]).schedules.filter
      (fun r => r.override)).all
      (fun r => decide (r ∈ storeC10.schedules))) = true :=
  inserts_not_override storeC10 storeC10 dec20y25 2025
    (runGenerate storeC10 dec20y25 2025) (generateInserts storeC10 dec20y25 2025)
    (generateDeletes storeC10 dec20y25 2025) [(100, DEPT_CSR, "Ana")] (by rfl)

/-- Witness for the amended C4: with groups 1 and 2 populated, the first target
date receives exactly group 1. -/
theorem spec_ops_assignment_by_target_position_witness :
    (((generateInserts storeC4w dec20y25 2025).filter
      (fun r => r.department_id == deptC4.id
        && r.date == List.get [dec20y25, dec27y25] ⟨0, by decide⟩)).map
      (fun r => r.employee_id))
      = (specOpsGroup storeC4w deptC4 (0 % 4 + 1)).map (fun e => e.id) :=
  spec_ops_assignment_by_target_position storeC4w dec20y25 2025 deptC4
    [dec20y25, dec27y25] (runGenerate storeC4w dec20y25 2025)
    (generateInserts storeC4w dec20y25 2025)
    (generateDeletes storeC4w dec20y25 2025) 0 (by decide) (by decide) (by decide)
    (by decide) (by rfl)

end SatSched
